import Mathlib

/-!
Verification of the kirigami geometry engine.

This file is a shallow embedding, over the real numbers, of the geometry
engine of the paper-folding design application:

* the per-column shape-factor evaluator of the main engine file
  (the big algorithm switch, the custom-formula wrapper, the image and
  sketch samplers), and
* the pop-up strip generator of the engine variant that carries the
  blueprint classifier (spine lines, coplanar-join suppression), the
  statistics block and the profile-radius clamp, together with its
  quad/volumetric-segment buffer builder.

JavaScript numeric values are modelled by real numbers; the few places
where IEEE special values (NaN, infinities) are semantically relevant
(the custom-formula result and the NaN guard of the quad pusher) are
modelled by an explicit JavaScript-number type with NaN and infinity
constructors.
-/

open Real Classical

/-- The algorithm selector: the fixed enumeration of the 17 profile
variants of the engine. -/
inductive AlgoType
  | stairs | sine | gaussian | ripple | voronoi | noise | fractal | custom
  | sphere | pyramid | steps | torus | pagoda | vase | canyon | image | sketch
deriving DecidableEq

/-- A JavaScript IEEE-754 number, for the places where NaN/infinity
semantics matter: either a finite real, NaN, or one of the two
infinities. -/
inductive JNum
  | fin (x : ℝ)
  | nan
  | inf
  | ninf

/-- Result of running the user-supplied custom formula: the call either
throws (a construction error of the evaluator) or returns a JavaScript
number (runtime errors inside the formula are already mapped to the
number 0 by the inner catch of the source). -/
inductive CustomResult
  | thrown
  | val (v : JNum)

/-- A 2D control point of the freehand sketch profile. -/
structure Pt where
  x : ℝ
  y : ℝ

/-- A decoded raster height map: the browser ImageData record.  Pixel
data is a byte array (Uint8ClampedArray), so each sample is in 0..255. -/
structure HeightMap where
  width : ℕ
  height : ℕ
  data : ℕ → Fin 256

/-- Paper dimensions in millimetres. -/
structure PaperSize where
  width : ℝ
  height : ℝ
  margin : ℝ

/-- The A4 paper constant of the source. -/
def PAPER_A4 : PaperSize := ⟨210, 297, 20⟩

/-- The engine's configuration snapshot (the AppState record of the
source).  The raw custom-formula text is replaced by the abstract
result of evaluating it at the arguments (x, f, i) the engine passes;
fields the engine never reads (overlay texture, video flag) are
omitted. -/
structure AppState where
  algorithm : AlgoType
  rows : ℕ
  cols : ℕ
  amplitude : ℝ
  frequency : ℝ
  spread : ℝ
  curvature : ℝ
  roughness : ℝ
  fractalOctaves : ℕ
  customEval : ℝ → ℝ → ℕ → CustomResult
  sketchPoints : List Pt
  foldProgress : ℝ
  paperThickness : ℝ
  showWireframe : Bool
  paperSize : PaperSize
  heightMapData : Option HeightMap

/-- Copy a configuration, replacing only the fold progress.  This is the
record update used to state fold-independence. -/
def setFold (s : AppState) (t : ℝ) : AppState :=
  ⟨s.algorithm, s.rows, s.cols, s.amplitude, s.frequency, s.spread, s.curvature,
   s.roughness, s.fractalOctaves, s.customEval, s.sketchPoints, t,
   s.paperThickness, s.showWireframe, s.paperSize, s.heightMapData⟩

/-- A 3D vector (THREE.Vector3). -/
structure Vec3 where
  x : ℝ
  y : ℝ
  z : ℝ

/-- Componentwise vector addition. -/
def Vec3.add (a b : Vec3) : Vec3 := ⟨a.x + b.x, a.y + b.y, a.z + b.z⟩

/-- Componentwise vector subtraction (subVectors). -/
def Vec3.sub (a b : Vec3) : Vec3 := ⟨a.x - b.x, a.y - b.y, a.z - b.z⟩

/-- Scalar multiplication (multiplyScalar). -/
def Vec3.smul (a : Vec3) (s : ℝ) : Vec3 := ⟨a.x * s, a.y * s, a.z * s⟩

/-- Vector negation (negate). -/
def Vec3.negate (a : Vec3) : Vec3 := ⟨-a.x, -a.y, -a.z⟩

/-- Cross product (THREE cross: a × b). -/
def Vec3.cross (a b : Vec3) : Vec3 :=
  ⟨a.y * b.z - a.z * b.y, a.z * b.x - a.x * b.z, a.x * b.y - a.y * b.x⟩

/-- Squared Euclidean length (lengthSq). -/
def Vec3.lengthSq (a : Vec3) : ℝ := a.x * a.x + a.y * a.y + a.z * a.z

/-- Euclidean length (length). -/
noncomputable def Vec3.length (a : Vec3) : ℝ := Real.sqrt a.lengthSq

/-- THREE.Vector3.normalize: divides by the length, or by 1 when the
length is zero (divideScalar(length || 1)), so the zero vector is
returned unchanged and no NaN arises. -/
noncomputable def Vec3.normalizeJS (a : Vec3) : Vec3 :=
  if a.length = 0 then a else a.smul (1 / a.length)

/-- addScaledVector: a + v * s. -/
def Vec3.addScaled (a v : Vec3) (s : ℝ) : Vec3 := a.add (v.smul s)

/-- Truncation toward zero, the rounding JavaScript's % operator uses. -/
noncomputable def jsTrunc (x : ℝ) : ℤ := if 0 ≤ x then ⌊x⌋ else -⌊-x⌋

/-- The JavaScript remainder operator a % b (sign of the dividend). -/
noncomputable def jsRem (a b : ℝ) : ℝ := a - b * (jsTrunc (a / b) : ℝ)

/-- isNaN on a JavaScript number. -/
def JNum.isNaNJ : JNum → Bool
  | .nan => true
  | _ => false

/-- Math.abs on a JavaScript number. -/
def JNum.absJ : JNum → JNum
  | .fin x => .fin |x|
  | .nan => .nan
  | .inf => .inf
  | .ninf => .inf

/-- Math.min on JavaScript numbers: NaN-propagating, with the usual
ordering of the infinities. -/
noncomputable def jsMinJ : JNum → JNum → JNum
  | .nan, _ => .nan
  | _, .nan => .nan
  | .ninf, _ => .ninf
  | _, .ninf => .ninf
  | .inf, b => b
  | a, .inf => a
  | .fin x, .fin y => .fin (min x y)

/-- Math.max on JavaScript numbers: NaN-propagating, with the usual
ordering of the infinities. -/
noncomputable def jsMaxJ : JNum → JNum → JNum
  | .nan, _ => .nan
  | _, .nan => .nan
  | .inf, _ => .inf
  | _, .inf => .inf
  | .ninf, b => b
  | a, .ninf => a
  | .fin x, .fin y => .fin (max x y)

/-- Extract the real value of a finite JavaScript number (0 otherwise;
only applied where the value is provably finite). -/
def JNum.toR : JNum → ℝ
  | .fin x => x
  | _ => 0

/-- The custom-algorithm branch of the shape-factor switch:
shapeFactor = isNaN(result) ? 0 : Math.max(0, Math.min(1,
Math.abs(result))), and 0 when the evaluator construction threw. -/
noncomputable def customShape (r : CustomResult) : ℝ :=
  match r with
  | .thrown => 0
  | .val v => if v.isNaNJ then 0 else (jsMaxJ (.fin 0) (jsMinJ (.fin 1) v.absJ)).toR

/-- Catmull-Rom spline interpolation of the source (catmullRom). -/
noncomputable def catmullRom (p0 p1 p2 p3 t : ℝ) : ℝ :=
  let v0 := (p2 - p0) * 0.5
  let v1 := (p3 - p1) * 0.5
  let t2 := t * t
  let t3 := t * t2
  (2 * p1 - 2 * p2 + v0 + v1) * t3 + (-3 * p1 + 3 * p2 - 2 * v0 - v1) * t2 + v0 * t + p1

/-- The while loop of the sketch branch that finds the segment index i
with pts[i].x <= u < pts[i+1].x; the fuel argument bounds the number of
iterations (the loop guard i < pts.length - 2 makes pts.length ample). -/
noncomputable def sketchFindGo (pts : List Pt) (u : ℝ) : ℕ → ℕ → ℕ
  | i, 0 => i
  | i, fuel + 1 =>
      if i < pts.length - 2 ∧ (pts.getD (i + 1) ⟨0, 0⟩).x < u then
        sketchFindGo pts u (i + 1) fuel
      else i

/-- The sketch branch body for a control-point list (run when the list
has more than one point): spline interpolation between the bracketing
control points, extrapolated at the ends, clamped to [0,1]. -/
noncomputable def sketchShape (pts : List Pt) (u : ℝ) : ℝ :=
  if pts.length < 2 then (pts.getD 0 ⟨0, 0⟩).y
  else
    let i := sketchFindGo pts u 0 pts.length
    let p1 := pts.getD i ⟨0, 0⟩
    let p2 := pts.getD (i + 1) ⟨0, 0⟩
    let p0 := if 0 < i then pts.getD (i - 1) ⟨0, 0⟩ else ⟨p1.x - (p2.x - p1.x), p1.y⟩
    let p3 := if i < pts.length - 2 then pts.getD (i + 2) ⟨0, 0⟩
              else ⟨p2.x + (p2.x - p1.x), p2.y⟩
    let range := p2.x - p1.x
    let tLerp := if range = 0 then 0 else (u - p1.x) / range
    max 0 (min 1 (catmullRom p0.y p1.y p2.y p3.y tLerp))

/-- The fractal summation loop: per octave add sin(normX*5*freq + k*1.32)
scaled by the halving amplitude, doubling the frequency. -/
noncomputable def fractalGo (nx : ℝ) : ℕ → ℕ → ℝ → ℝ → ℝ → ℝ
  | 0, _, v, _, _ => v
  | n + 1, k, v, amp, freq =>
      fractalGo nx n (k + 1) (v + Real.sin (nx * 5 * freq + (k : ℝ) * 1.32) * amp)
        (amp * 0.5) (freq * 2)

/-- Normalized column position: (c / cols) * 2 - 1, in [-1, 1). -/
noncomputable def normXD (s : AppState) (c : ℕ) : ℝ :=
  ((c : ℝ) / (s.cols : ℝ)) * 2 - 1

/-- The algorithm switch of the shape-factor computation of the main
engine file, one case per variant, evaluated at the normalized column
position nx. -/
noncomputable def shapeFactorAlgo (s : AppState) (c : ℕ) (nx : ℝ) : AlgoType → ℝ
  | .stairs => 1
  | .sine => |Real.sin (nx * π * s.frequency)|
  | .gaussian => Real.exp (-(nx * nx * s.spread / 100))
  | .ripple => (Real.cos (|nx| * 10 * s.frequency) * 0.5 + 0.5) * Real.exp (-|nx| * 2)
  | .voronoi => |Real.sin (nx * 10)| * |Real.cos (nx * 5 * s.frequency)|
  | .noise => Real.sin (nx * 13.0 * s.frequency) * Real.sin (nx * 27.0) * 0.5 + 0.5
  | .sphere =>
      let sphExp := max 0.1 s.curvature
      let sphWidth := 0.5 + s.frequency * 0.5
      let sphX := |nx * sphWidth|
      if sphX < 1 then
        let baseVal := (1 - sphX ^ sphExp) ^ (1 / sphExp)
        if 0 < s.roughness then
          baseVal + |Real.sin (nx * 40 * sphWidth)| * s.roughness * 0.2 * baseVal
        else baseVal
      else 0
  | .pyramid =>
      let pyrExp := max 0.1 s.curvature
      let pyrWidth := 0.5 + s.frequency * 0.5
      let pyrX := |nx * pyrWidth|
      let basePyr := (max 0 (1 - pyrX)) ^ pyrExp
      if 0 < s.roughness then
        let qsteps := ((2 + ⌊(1.1 - s.roughness) * 20⌋ : ℤ) : ℝ)
        (⌊basePyr * qsteps⌋ : ℝ) / qsteps
      else basePyr
  | .torus =>
      let torExp := max 0.1 s.curvature
      let torScale := 1.0 + s.frequency
      let torX := (|nx| - 0.5) * torScale * 2
      if |torX| < 1 then
        let baseTor := (1 - |torX| ^ torExp) ^ (1 / torExp)
        if 0 < s.roughness then
          baseTor + Real.sin (nx * 30) * s.roughness * 0.3 * baseTor
        else baseTor
      else 0
  | .pagoda =>
      let pTiers := ((2 + ⌊s.frequency * 4⌋ : ℤ) : ℝ)
      let rawPagoda := max 0 (1 - |nx| * 1.2)
      let pagodaCurve := s.curvature * 0.5
      let curvedP := rawPagoda ^ pagodaCurve
      let curvedP2 :=
        if 0 < s.roughness then
          let tierPhase := jsRem (curvedP * pTiers) 1
          if tierPhase < 0.2 then curvedP + (0.2 - tierPhase) * s.roughness * 0.5
          else curvedP
        else curvedP
      (⌊curvedP2 * pTiers⌋ : ℝ) / pTiers
  | .vase =>
      let vx := nx * π * (s.frequency + 0.5)
      let envPow := s.curvature
      let envelope := max 0 (1 - |nx| ^ envPow)
      let vaseShape := (Real.cos (vx * 2) * 0.5 + 0.5) * envelope
      if 0 < s.roughness then
        vaseShape + Real.cos (nx * 60) * s.roughness * 0.1 * envelope
      else vaseShape
  | .canyon =>
      let cx := |nx * (0.5 + s.frequency * 0.5)|
      let canyonExp := s.curvature
      let baseCanyon := (min 1 (max 0 cx)) ^ canyonExp
      if 0 < s.roughness then
        let pseudoRand := Real.sin ((c : ℝ) * 12.9898) * 43758.5453
        baseCanyon + (pseudoRand - (⌊pseudoRand⌋ : ℝ)) * s.roughness * 0.2
      else baseCanyon
  | .steps =>
      let stepCount := ((⌊2 + s.frequency * 8⌋ : ℤ) : ℝ)
      let stepRaw := (max 0 (1 - |nx|)) ^ s.curvature
      (⌊stepRaw * stepCount⌋ : ℝ) / stepCount
  | .fractal => min 1 (|fractalGo nx s.fractalOctaves 0 0 0.5 s.frequency| + 0.1)
  | .custom => customShape (s.customEval nx s.frequency c)
  | .image =>
      match s.heightMapData with
      | none => 0
      | some hm =>
          let u := (nx + 1) / 2
          let col := (⌊u * ((hm.width : ℝ) - 1)⌋).toNat
          let row := hm.height / 2
          let idx := (row * hm.width + col) * 4
          ((((hm.data idx).val + (hm.data (idx + 1)).val + (hm.data (idx + 2)).val : ℕ) : ℝ))
            / 3 / 255
  | .sketch =>
      if 1 < s.sketchPoints.length then sketchShape s.sketchPoints ((nx + 1) / 2)
      else 0.5

/-- The per-column shape factor of the main engine file: 0 for an even
(fixed) column, otherwise the algorithm switch at the normalized column
position. -/
noncomputable def shapeFactor (s : AppState) (c : ℕ) : ℝ :=
  if c % 2 = 0 then 0 else shapeFactorAlgo s c (normXD s c) s.algorithm

/-- Blueprint line classification tags. -/
inductive LineType
  | cut | mountain | valley | spine | outline
deriving DecidableEq

/-- A 2D blueprint line in paper coordinate space with its tag. -/
structure BLine where
  x1 : ℝ
  y1 : ℝ
  x2 : ℝ
  y2 : ℝ
  type : LineType

/-- Which emission site of the strip generator produced a volumetric
segment (one tag per pushVolumetricSegment call site). -/
inductive SegKind
  | fixedFloor | fixedWall | floorMargin | tread | riser | wallMargin
deriving DecidableEq

/-- One volumetric segment: the four top-face corners and the face
normal handed to pushVolumetricSegment, tagged with its call site.
All call sites of the strip generator request both side walls. -/
structure Seg where
  kind : SegKind
  v0 : Vec3
  v1 : Vec3
  v2 : Vec3
  v3 : Vec3
  n : Vec3

/-- The growing position/normal/index accumulation buffers. -/
structure Buffers where
  positions : List ℝ
  normals : List ℝ
  indices : List ℕ

/-- pushQuad: append the four vertices, four copies of the normal, and
two index triangles (fan around the first vertex), starting at vertex
index positions.length / 3.  The isNaN guard of the source is vacuous
over the reals and is modelled separately (pushQuadJ). -/
def pushQuad (b : Buffers) (v0 v1 v2 v3 n : Vec3) : Buffers :=
  let idx := b.positions.length / 3
  ⟨b.positions ++ [v0.x, v0.y, v0.z, v1.x, v1.y, v1.z, v2.x, v2.y, v2.z, v3.x, v3.y, v3.z],
   b.normals ++ [n.x, n.y, n.z, n.x, n.y, n.z, n.x, n.y, n.z, n.x, n.y, n.z],
   b.indices ++ [idx, idx + 1, idx + 2, idx, idx + 2, idx + 3]⟩

/-- pushVolumetricSegment: top face, and when thickness is positive a
bottom face offset along the negated unit normal with reversed winding,
plus left/right side walls whose degenerate (squared length below 1e-6)
edges are skipped. -/
noncomputable def pushVolumetricSegment (b : Buffers) (v0 v1 v2 v3 n : Vec3)
    (thickness : ℝ) (genLeftWall genRightWall : Bool) : Buffers :=
  let b1 := pushQuad b v0 v1 v2 v3 n
  if 0 < thickness then
    let safeN := n.normalizeJS
    let off := safeN.smul (-thickness)
    let q0 := v0.add off
    let q1 := v1.add off
    let q2 := v2.add off
    let q3 := v3.add off
    let b2 := pushQuad b1 q0 q3 q2 q1 n.negate
    let b3 :=
      if genLeftWall then
        let edge := v3.sub v0
        if 0.000001 < edge.lengthSq then
          pushQuad b2 v0 v3 q3 q0 ((n.cross edge).normalizeJS)
        else b2
      else b2
    if genRightWall then
      let edge := v2.sub v1
      if 0.000001 < edge.lengthSq then
        pushQuad b3 v1 q1 q2 v2 ((edge.cross n).normalizeJS)
      else b3
    else b3
  else b1

/-- Laser-cutter kerf: the physical gap between adjacent strips. -/
noncomputable def KERF : ℝ := 0.15

/-- Width of one column cell: (paper width - 2 margin) / cols. -/
noncomputable def stripWidthD (s : AppState) : ℝ :=
  (s.paperSize.width - s.paperSize.margin * 2) / (s.cols : ℝ)

/-- Left edge of column c's cell before the kerf is applied. -/
noncomputable def xBaseD (s : AppState) (c : ℕ) : ℝ :=
  -s.paperSize.width / 2 + s.paperSize.margin + (c : ℝ) * stripWidthD s

/-- Left x-extent of column c's strip (kerf applied). -/
noncomputable def xLeftD (s : AppState) (c : ℕ) : ℝ := xBaseD s c + KERF / 2

/-- Right x-extent of column c's strip (kerf applied). -/
noncomputable def xRightD (s : AppState) (c : ℕ) : ℝ :=
  xBaseD s c + stripWidthD s - KERF / 2

/-- The fold angle: foldProgress * pi/2. -/
noncomputable def foldAngle (t : ℝ) : ℝ := t * (π / 2)

/-- Rigid direction of the floor half (fixed). -/
def vecFloor : Vec3 := ⟨0, 1, 0⟩

/-- Normal of the floor half (fixed). -/
def normFloor : Vec3 := ⟨0, 0, 1⟩

/-- Rigid direction of the wall half, rotated by the fold angle. -/
noncomputable def vecWall (t : ℝ) : Vec3 :=
  ⟨0, Real.cos (foldAngle t), Real.sin (foldAngle t)⟩

/-- Normal of the wall half, rotated by the fold angle. -/
noncomputable def normWall (t : ℝ) : Vec3 :=
  ⟨0, -Real.sin (foldAngle t), Real.cos (foldAngle t)⟩

/-- The raw active-strip profile radius of the blueprint-classifier
engine variant: sphere and pyramid cross-sections, the plain amplitude
for steps/stairs, and a cosine bump for every other variant. -/
noncomputable def profileRadiusRaw (s : AppState) (c : ℕ) : ℝ :=
  let nx := normXD s c
  let halfW := s.paperSize.width / 2 - s.paperSize.margin
  match s.algorithm with
  | .sphere =>
      let r := s.amplitude
      let xDist := |nx * halfW|
      if xDist < r then Real.sqrt (r * r - xDist * xDist) else 0
  | .pyramid =>
      let r := s.amplitude
      let xD := |nx * halfW|
      max 0 (r - xD)
  | .steps => s.amplitude
  | .stairs => s.amplitude
  | _ => s.amplitude * (Real.cos (nx * π) * 0.5 + 0.5)

/-- The profile radius actually used: clamped to paperHeight/2 - margin. -/
noncomputable def profileRadiusP (s : AppState) (c : ℕ) : ℝ :=
  min (profileRadiusRaw s c) (s.paperSize.height / 2 - s.paperSize.margin)

/-- Result of the riser/tread step loop: segments and blueprint lines in
emission order, plus the final running position and paper-space y. -/
structure StepOut where
  segs : List Seg
  lines : List BLine
  pos : Vec3
  paperY : ℝ

/-- The riser/tread step loop of an active strip: per iteration a
floor-parallel tread advanced by dy then a wall-parallel riser advanced
by dz (dy, dz read off a quarter-circle profile of radius r), a valley
line after the tread when dz is non-negligible, and a mountain line
after the riser except at the last step when dy is non-negligible.
i is the loop counter, the second argument counts remaining steps. -/
noncomputable def stepLoop (r xL xR : ℝ) (steps : ℕ) (vw nw : Vec3) :
    ℕ → ℕ → Vec3 → ℝ → StepOut
  | _, 0, pos, paperY => ⟨[], [], pos, paperY⟩
  | i, k + 1, pos, paperY =>
      let ang1 := ((i : ℝ) / (steps : ℝ)) * (π / 2)
      let ang2 := (((i : ℝ) + 1) / (steps : ℝ)) * (π / 2)
      let y1 := -r * Real.cos ang1
      let z1 := r * Real.sin ang1
      let y2 := -r * Real.cos ang2
      let z2 := r * Real.sin ang2
      let dy := |y2 - y1|
      let dz := |z2 - z1|
      let pTreadEnd := pos.addScaled vecFloor dy
      let seg1 : Seg := ⟨.tread, ⟨xL, pos.y, pos.z⟩, ⟨xR, pos.y, pos.z⟩,
        ⟨xR, pTreadEnd.y, pTreadEnd.z⟩, ⟨xL, pTreadEnd.y, pTreadEnd.z⟩, normFloor⟩
      let paperY1 := paperY + dy
      let valleyL : List BLine :=
        if 0.01 < dz then [⟨xL, paperY1, xR, paperY1, .valley⟩] else []
      let pRiserEnd := pTreadEnd.addScaled vw dz
      let seg2 : Seg := ⟨.riser, ⟨xL, pTreadEnd.y, pTreadEnd.z⟩, ⟨xR, pTreadEnd.y, pTreadEnd.z⟩,
        ⟨xR, pRiserEnd.y, pRiserEnd.z⟩, ⟨xL, pRiserEnd.y, pRiserEnd.z⟩, nw⟩
      let paperY2 := paperY1 + dz
      let mountainL : List BLine :=
        if i < steps - 1 ∧ 0.01 < dy then [⟨xL, paperY2, xR, paperY2, .mountain⟩] else []
      let rest := stepLoop r xL xR steps vw nw (i + 1) k pRiserEnd paperY2
      ⟨seg1 :: seg2 :: rest.segs, valleyL ++ mountainL ++ rest.lines, rest.pos, rest.paperY⟩

/-- The two static segments of a fixed column (floor and wall anchors),
also emitted by the flatten-if-negligible fallback of an active column. -/
noncomputable def fixedSegs (s : AppState) (c : ℕ) : List Seg :=
  let xL := xLeftD s c
  let xR := xRightD s c
  let h := s.paperSize.height
  let pTop := (⟨0, 0, 0⟩ : Vec3).addScaled (vecWall s.foldProgress) (h / 2)
  [⟨.fixedFloor, ⟨xL, -h / 2, 0⟩, ⟨xR, -h / 2, 0⟩, ⟨xR, 0, 0⟩, ⟨xL, 0, 0⟩, normFloor⟩,
   ⟨.fixedWall, ⟨xL, 0, 0⟩, ⟨xR, 0, 0⟩, ⟨xR, pTop.y, pTop.z⟩, ⟨xL, pTop.y, pTop.z⟩,
     normWall s.foldProgress⟩]

/-- The blueprint lines of a fixed column: spine side edges of the floor
and wall anchors and a valley seam at the hinge. -/
noncomputable def fixedLines (s : AppState) (c : ℕ) : List BLine :=
  let xL := xLeftD s c
  let xR := xRightD s c
  let h := s.paperSize.height
  [⟨xL, -h / 2, xL, 0, .spine⟩, ⟨xR, -h / 2, xR, 0, .spine⟩,
   ⟨xL, 0, xR, 0, .valley⟩,
   ⟨xL, 0, xL, h / 2, .spine⟩, ⟨xR, 0, xR, h / 2, .spine⟩]

/-- Segments and blueprint lines of an active column above the
negligible-radius threshold: static floor margin, the riser/tread loop,
a static wall margin, and full-height cut lines at both x-extents. -/
noncomputable def activeOut (s : AppState) (c : ℕ) : List Seg × List BLine :=
  let xL := xLeftD s c
  let xR := xRightD s c
  let h := s.paperSize.height
  let r := profileRadiusP s c
  let steps := max 2 s.rows
  let yStart := -r
  let floorMarginSeg : Seg :=
    ⟨.floorMargin, ⟨xL, -h / 2, 0⟩, ⟨xR, -h / 2, 0⟩, ⟨xR, yStart, 0⟩, ⟨xL, yStart, 0⟩, normFloor⟩
  let L := stepLoop r xL xR steps (vecWall s.foldProgress) (normWall s.foldProgress)
    0 steps ⟨0, yStart, 0⟩ yStart
  let pEndW := (⟨0, 0, 0⟩ : Vec3).addScaled (vecWall s.foldProgress) (h / 2)
  let wallMarginSeg : Seg :=
    ⟨.wallMargin, ⟨xL, L.pos.y, L.pos.z⟩, ⟨xR, L.pos.y, L.pos.z⟩,
     ⟨xR, pEndW.y, pEndW.z⟩, ⟨xL, pEndW.y, pEndW.z⟩, normWall s.foldProgress⟩
  (floorMarginSeg :: (L.segs ++ [wallMarginSeg]),
   ⟨xL, -h / 2, xL, h / 2, .cut⟩ :: ⟨xR, -h / 2, xR, h / 2, .cut⟩ :: L.lines)

/-- Per-column output: fixed columns (even index) emit the two anchors
and their spine/valley lines; an active column whose clamped radius is
below 1 degrades to the anchors with a single hinge valley; otherwise
the active strip is built. -/
noncomputable def colOut (s : AppState) (c : ℕ) : List Seg × List BLine :=
  if c % 2 = 0 then (fixedSegs s c, fixedLines s c)
  else if profileRadiusP s c < 1 then
    (fixedSegs s c, [⟨xLeftD s c, 0, xRightD s c, 0, .valley⟩])
  else activeOut s c

/-- Effective thickness: paperThickness || 0.1 (a zero or unset
thickness falls back to 0.1). -/
noncomputable def thicknessOf (s : AppState) : ℝ :=
  if s.paperThickness = 0 then 0.1 else s.paperThickness

/-- All volumetric segments of all columns in emission order. -/
noncomputable def allSegs (s : AppState) : List Seg :=
  (List.range s.cols).flatMap fun c => (colOut s c).1

/-- All blueprint lines of all columns in emission order. -/
noncomputable def blueprintOf (s : AppState) : List BLine :=
  (List.range s.cols).flatMap fun c => (colOut s c).2

/-- The accumulated geometry buffers: every segment pushed through
pushVolumetricSegment with both side walls requested. -/
noncomputable def buffersOf (s : AppState) : Buffers :=
  (allSegs s).foldl
    (fun b g => pushVolumetricSegment b g.v0 g.v1 g.v2 g.v3 g.n (thicknessOf s) true true)
    ⟨[], [], []⟩

/-- Euclidean length of a blueprint line. -/
noncomputable def lineLen (l : BLine) : ℝ :=
  Real.sqrt ((l.x2 - l.x1) ^ 2 + (l.y2 - l.y1) ^ 2)

/-- The statistics pass of the source: one fold over the blueprint lines
accumulating total cut length and total fold (mountain or valley)
length. -/
noncomputable def statsFold (ls : List BLine) : ℝ × ℝ :=
  ls.foldl
    (fun acc l =>
      (if l.type = .cut then acc.1 + lineLen l else acc.1,
       if l.type = .mountain ∨ l.type = .valley then acc.2 + lineLen l else acc.2))
    (0, 0)

/-- The aggregate statistics record of the engine output. -/
structure PStats where
  totalCutLength : ℝ
  totalFoldLength : ℝ
  polyCount : ℝ

/-- The engine output record: buffers, blueprint lines and statistics. -/
structure PGeometry where
  positions : List ℝ
  normals : List ℝ
  indices : List ℕ
  blueprintLines : List BLine
  stats : PStats

/-- The generator: per-column segments and blueprint lines (in source
emission order), the accumulated buffers, and the statistics
(polyCount = indices.length / 3). -/
noncomputable def generateKirigamiGeometry (s : AppState) : PGeometry :=
  let buf := buffersOf s
  let ls := blueprintOf s
  ⟨buf.positions, buf.normals, buf.indices, ls,
   ⟨(statsFold ls).1, (statsFold ls).2, ((buf.indices.length : ℕ) : ℝ) / 3⟩⟩

/-- A THREE vector over JavaScript numbers, for the NaN-guard model. -/
structure JVec3 where
  x : JNum
  y : JNum
  z : JNum

/-- Buffers over JavaScript numbers. -/
structure JBuffers where
  positions : List JNum
  normals : List JNum
  indices : List ℕ

/-- pushQuad over JavaScript numbers, with the source's NaN guard: the
quad is dropped exactly when isNaN(v0.x) or isNaN(n.x). -/
def pushQuadJ (b : JBuffers) (v0 v1 v2 v3 n : JVec3) : JBuffers :=
  let idx := b.positions.length / 3
  if v0.x.isNaNJ || n.x.isNaNJ then b
  else
    ⟨b.positions ++ [v0.x, v0.y, v0.z, v1.x, v1.y, v1.z, v2.x, v2.y, v2.z, v3.x, v3.y, v3.z],
     b.normals ++ [n.x, n.y, n.z, n.x, n.y, n.z, n.x, n.y, n.z, n.x, n.y, n.z],
     b.indices ++ [idx, idx + 1, idx + 2, idx, idx + 2, idx + 3]⟩

/-- A JavaScript number is NaN-free when it is finite or infinite. -/
def JNum.notNaN : JNum → Prop
  | .nan => False
  | _ => True

/-- Structural well-formedness of the accumulation buffers: parallel
normals, whole vertices, whole triangles, and in-range indices. -/
def buffersWF (b : Buffers) : Prop :=
  b.normals.length = b.positions.length ∧ b.positions.length % 3 = 0 ∧
  b.indices.length % 3 = 0 ∧ ∀ i ∈ b.indices, i < b.positions.length / 3

lemma pushQuad_positions (b : Buffers) (v0 v1 v2 v3 n : Vec3) :
    (pushQuad b v0 v1 v2 v3 n).positions =
      b.positions ++ [v0.x, v0.y, v0.z, v1.x, v1.y, v1.z, v2.x, v2.y, v2.z, v3.x, v3.y, v3.z] :=
  rfl

lemma pushQuad_normals (b : Buffers) (v0 v1 v2 v3 n : Vec3) :
    (pushQuad b v0 v1 v2 v3 n).normals =
      b.normals ++ [n.x, n.y, n.z, n.x, n.y, n.z, n.x, n.y, n.z, n.x, n.y, n.z] :=
  rfl

lemma pushQuad_indices (b : Buffers) (v0 v1 v2 v3 n : Vec3) :
    (pushQuad b v0 v1 v2 v3 n).indices =
      b.indices ++ [b.positions.length / 3, b.positions.length / 3 + 1,
        b.positions.length / 3 + 2, b.positions.length / 3,
        b.positions.length / 3 + 2, b.positions.length / 3 + 3] :=
  rfl

lemma pushQuad_wf (b : Buffers) (v0 v1 v2 v3 n : Vec3) (h : buffersWF b) :
    buffersWF (pushQuad b v0 v1 v2 v3 n) := by
  obtain ⟨h1, h2, h3, h4⟩ := h
  refine ⟨?_, ?_, ?_, ?_⟩
  · rw [pushQuad_normals, pushQuad_positions]
    simp only [List.length_append, List.length_cons, List.length_nil]
    omega
  · rw [pushQuad_positions]
    simp only [List.length_append, List.length_cons, List.length_nil]
    omega
  · rw [pushQuad_indices]
    simp only [List.length_append, List.length_cons, List.length_nil]
    omega
  · intro i hi
    rw [pushQuad_indices] at hi
    rw [pushQuad_positions]
    simp only [List.mem_append, List.mem_cons, List.not_mem_nil, or_false] at hi
    simp only [List.length_append, List.length_cons, List.length_nil]
    rcases hi with hi | hi | hi | hi | hi | hi | hi
    · have := h4 i hi; omega
    all_goals omega

lemma pushVol_wf (b : Buffers) (v0 v1 v2 v3 n : Vec3) (th : ℝ) (gl gr : Bool)
    (h : buffersWF b) : buffersWF (pushVolumetricSegment b v0 v1 v2 v3 n th gl gr) := by
  unfold pushVolumetricSegment
  dsimp only
  split_ifs <;> (repeat' apply pushQuad_wf) <;> exact h

lemma foldl_pushVol_wf (th : ℝ) (segs : List Seg) (b : Buffers) (h : buffersWF b) :
    buffersWF (segs.foldl
      (fun b g => pushVolumetricSegment b g.v0 g.v1 g.v2 g.v3 g.n th true true) b) := by
  induction segs generalizing b with
  | nil => exact h
  | cons g gs ih => exact ih _ (pushVol_wf _ _ _ _ _ _ _ _ _ h)

/-- C10: for every configuration the output buffers are structurally
well-formed: normals has the same length as positions, positions and
indices have lengths divisible by 3, and every index refers to an
existing vertex (index < positions.length / 3). -/
theorem output_buffers_well_formed (s : AppState) :
    (generateKirigamiGeometry s).normals.length =
      (generateKirigamiGeometry s).positions.length ∧
    (generateKirigamiGeometry s).positions.length % 3 = 0 ∧
    (generateKirigamiGeometry s).indices.length % 3 = 0 ∧
    ∀ i ∈ (generateKirigamiGeometry s).indices,
      i < (generateKirigamiGeometry s).positions.length / 3 := by
  have h0 : buffersWF ⟨[], [], []⟩ := by
    refine ⟨rfl, rfl, rfl, ?_⟩
    intro i hi
    simp at hi
  exact foldl_pushVol_wf (thicknessOf s) (allSegs s) ⟨[], [], []⟩ h0

lemma statsFold_spec (ls : List BLine) :
    statsFold ls =
      (((ls.filter fun l => l.type = LineType.cut).map lineLen).sum,
       ((ls.filter fun l =>
          l.type = LineType.mountain ∨ l.type = LineType.valley).map lineLen).sum) := by
  have key : ∀ (ms : List BLine) (a b : ℝ),
      ms.foldl
        (fun acc l =>
          (if l.type = .cut then acc.1 + lineLen l else acc.1,
           if l.type = .mountain ∨ l.type = .valley then acc.2 + lineLen l else acc.2))
        (a, b) =
      (a + ((ms.filter fun l => l.type = LineType.cut).map lineLen).sum,
       b + ((ms.filter fun l =>
          l.type = LineType.mountain ∨ l.type = LineType.valley).map lineLen).sum) := by
    intro ms
    induction ms with
    | nil => intro a b; simp
    | cons l t ih =>
        intro a b
        by_cases hcut : l.type = LineType.cut <;>
          by_cases hfold : l.type = LineType.mountain ∨ l.type = LineType.valley <;>
            simp [List.foldl_cons, List.filter_cons, hcut, hfold, ih, add_assoc]
  unfold statsFold
  rw [key]
  simp

/-- C9: the statistics record is consistent with the output: the total
cut length is the sum of the Euclidean lengths of the cut lines, the
total fold length is the sum over the mountain and valley lines, and the
reported triangle count is indices.length / 3. -/
theorem stats_consistent (s : AppState) :
    (generateKirigamiGeometry s).stats.totalCutLength =
      (((generateKirigamiGeometry s).blueprintLines.filter
        fun l => l.type = LineType.cut).map lineLen).sum ∧
    (generateKirigamiGeometry s).stats.totalFoldLength =
      (((generateKirigamiGeometry s).blueprintLines.filter
        fun l => l.type = LineType.mountain ∨ l.type = LineType.valley).map lineLen).sum ∧
    (generateKirigamiGeometry s).stats.polyCount =
      ((generateKirigamiGeometry s).indices.length : ℝ) / 3 := by
  refine ⟨?_, ?_, rfl⟩
  · show (statsFold (blueprintOf s)).1 = _
    rw [statsFold_spec]
    rfl
  · show (statsFold (blueprintOf s)).2 = _
    rw [statsFold_spec]
    rfl

/-- C5: the profile radius the active strip builder consumes is clamped
to paperHeight / 2 - margin, for every configuration and column. -/
theorem profile_radius_clamped (s : AppState) (c : ℕ) :
    profileRadiusP s c ≤ s.paperSize.height / 2 - s.paperSize.margin :=
  min_le_right _ _

lemma stepLoop_lines_ext (r xL xR : ℝ) (steps : ℕ) (vw nw vw' nw' : Vec3) :
    ∀ (k i : ℕ) (pos pos' : Vec3) (paperY : ℝ),
      (stepLoop r xL xR steps vw nw i k pos paperY).lines =
      (stepLoop r xL xR steps vw' nw' i k pos' paperY).lines := by
  intro k
  induction k with
  | zero => intro i pos pos' paperY; rfl
  | succ k ih =>
      intro i pos pos' paperY
      simp only [stepLoop]
      rw [ih]

lemma colOut_lines_fold (s : AppState) (t t' : ℝ) (c : ℕ) :
    (colOut (setFold s t) c).2 = (colOut (setFold s t') c).2 := by
  unfold colOut
  by_cases h0 : c % 2 = 0
  · rw [if_pos h0, if_pos h0]
    rfl
  · rw [if_neg h0, if_neg h0]
    have hrad : profileRadiusP (setFold s t) c = profileRadiusP (setFold s t') c := rfl
    by_cases h1 : profileRadiusP (setFold s t) c < 1
    · rw [if_pos h1, if_pos (hrad ▸ h1)]
      rfl
    · rw [if_neg h1, if_neg (hrad ▸ h1)]
      show (activeOut (setFold s t) c).2 = (activeOut (setFold s t') c).2
      unfold activeOut
      dsimp only
      exact congrArg₂ (· :: ·) rfl (congrArg₂ (· :: ·) rfl
        (stepLoop_lines_ext _ _ _ _ _ _ _ _ _ _ _ _ _))

/-- C4: the blueprint line sequence does not depend on the fold
progress: two configurations differing only in foldProgress produce
identical blueprint line lists. -/
theorem blueprint_fold_independent (s : AppState) (t t' : ℝ) :
    blueprintOf (setFold s t) = blueprintOf (setFold s t') := by
  show (List.range s.cols).flatMap (fun c => (colOut (setFold s t) c).2) =
       (List.range s.cols).flatMap (fun c => (colOut (setFold s t') c).2)
  exact congrArg _ (funext fun c => colOut_lines_fold s t t' c)

/-- Concrete first vertex for the NaN-guard counterexample: finite x. -/
def jq0 : JVec3 := ⟨.fin 0, .fin 0, .fin 0⟩

/-- Concrete second vertex for the NaN-guard counterexample: NaN in y. -/
def jq1 : JVec3 := ⟨.fin 0, .nan, .fin 0⟩

/-- C8 counterexample: a quad whose second vertex has a NaN y-coordinate
(first vertex x and normal x finite) is NOT discarded — the buffers grow
and the emitted positions contain a non-finite value, contradicting the
claim that any non-finite vertex coordinate discards the segment and
that all emitted numbers are finite. -/
theorem pushQuad_nan_leak_counterexample :
    (pushQuadJ ⟨[], [], []⟩ jq0 jq1 jq0 jq0 jq0).positions ≠ [] ∧
    JNum.nan ∈ (pushQuadJ ⟨[], [], []⟩ jq0 jq1 jq0 jq0 jq0).positions := by
  constructor <;> simp [pushQuadJ, jq0, jq1, JNum.isNaNJ]

/-- C8 amended: the guard drops a quad exactly when the first vertex's
x-coordinate or the normal's x-coordinate is NaN; a non-finite value in
any other coordinate is emitted into the buffers unchanged. -/
theorem pushQuad_guard_amended (b : JBuffers) (v0 v1 v2 v3 n : JVec3) :
    pushQuadJ b v0 v1 v2 v3 n = b ↔ (v0.x.isNaNJ = true ∨ n.x.isNaNJ = true) := by
  unfold pushQuadJ
  split_ifs with h
  · simp only [Bool.or_eq_true] at h
    simp [h]
  · simp only [Bool.or_eq_true] at h
    constructor
    · intro he
      exfalso
      have hp := congrArg JBuffers.positions he
      have hl := congrArg List.length hp
      simp at hl
    · intro hc
      exact absurd hc h

lemma half_cos_mem (x : ℝ) : 0 ≤ Real.cos x * 0.5 + 0.5 ∧ Real.cos x * 0.5 + 0.5 ≤ 1 := by
  have h1 := Real.neg_one_le_cos x
  have h2 := Real.cos_le_one x
  constructor <;> nlinarith

lemma rpow_mem (b e : ℝ) (hb0 : 0 ≤ b) (hb1 : b ≤ 1) (he : 0 ≤ e) :
    0 ≤ b ^ e ∧ b ^ e ≤ 1 :=
  ⟨Real.rpow_nonneg hb0 e, Real.rpow_le_one hb0 hb1 he⟩

lemma floor_div_mem (x p : ℝ) (hx0 : 0 ≤ x) (hxp : x ≤ p) (hp : 0 < p) :
    0 ≤ (⌊x⌋ : ℝ) / p ∧ (⌊x⌋ : ℝ) / p ≤ 1 := by
  constructor
  · apply div_nonneg _ hp.le
    exact_mod_cast Int.floor_nonneg.mpr hx0
  · rw [div_le_one hp]
    exact (Int.floor_le x).trans hxp

lemma mul_sines_half_mem (a b : ℝ) (ha1 : -1 ≤ a) (ha2 : a ≤ 1) (hb1 : -1 ≤ b) (hb2 : b ≤ 1) :
    0 ≤ a * b * 0.5 + 0.5 ∧ a * b * 0.5 + 0.5 ≤ 1 := by
  constructor <;>
    nlinarith [mul_nonneg (by linarith : (0:ℝ) ≤ 1 + a) (by linarith : (0:ℝ) ≤ 1 + b),
      mul_nonneg (by linarith : (0:ℝ) ≤ 1 - a) (by linarith : (0:ℝ) ≤ 1 - b)]

lemma exp_le_one_of_nonpos (x : ℝ) (h : x ≤ 0) : Real.exp x ≤ 1 := by
  rw [show (1:ℝ) = Real.exp 0 from Real.exp_zero.symm]
  exact Real.exp_le_exp.mpr h

lemma customShape_mem (r : CustomResult) : 0 ≤ customShape r ∧ customShape r ≤ 1 := by
  cases r with
  | thrown => norm_num [customShape]
  | val v =>
      cases v with
      | fin x =>
          have h : customShape (.val (.fin x)) = max 0 (min 1 |x|) := rfl
          rw [h]
          exact ⟨le_max_left _ _, max_le zero_le_one (min_le_left _ _)⟩
      | nan => norm_num [customShape, JNum.isNaNJ]
      | inf =>
          have h : customShape (.val .inf) = max (0:ℝ) 1 := rfl
          rw [h]
          norm_num
      | ninf =>
          have h : customShape (.val .ninf) = max (0:ℝ) 1 := rfl
          rw [h]
          norm_num

/-- C1 amended: under the parameter ranges in which the engine's formulas
are pointwise bounded (no roughness perturbation and nonnegative spread,
curvature and frequency) the shape factor of every column is in [0,1],
for every algorithm variant. -/
theorem shape_factor_bounded_amended (s : AppState) (c : ℕ)
    (hc : c < s.cols) (hrough : s.roughness = 0) (hspread : 0 ≤ s.spread)
    (hcurv : 0 ≤ s.curvature) (hfreq : 0 ≤ s.frequency) :
    0 ≤ shapeFactor s c ∧ shapeFactor s c ≤ 1 := by
  unfold shapeFactor
  by_cases h0 : c % 2 = 0
  · simp [h0]
  · rw [if_neg h0]
    set nx := normXD s c with hnx
    cases halg : s.algorithm
    -- stairs
    · constructor <;> simp [shapeFactorAlgo]
    -- sine
    · simp only [shapeFactorAlgo]
      exact ⟨abs_nonneg _, Real.abs_sin_le_one _⟩
    -- gaussian
    · simp only [shapeFactorAlgo]
      refine ⟨(Real.exp_pos _).le, exp_le_one_of_nonpos _ ?_⟩
      nlinarith [mul_self_nonneg nx]
    -- ripple
    · simp only [shapeFactorAlgo]
      have hA := half_cos_mem (|nx| * 10 * s.frequency)
      have hE : Real.exp (-|nx| * 2) ≤ 1 :=
        exp_le_one_of_nonpos _ (by nlinarith [abs_nonneg nx])
      exact ⟨mul_nonneg hA.1 (Real.exp_pos _).le, mul_le_one₀ hA.2 (Real.exp_pos _).le hE⟩
    -- voronoi
    · simp only [shapeFactorAlgo]
      exact ⟨mul_nonneg (abs_nonneg _) (abs_nonneg _),
        mul_le_one₀ (Real.abs_sin_le_one _) (abs_nonneg _) (Real.abs_cos_le_one _)⟩
    -- noise
    · simp only [shapeFactorAlgo]
      exact mul_sines_half_mem _ _ (Real.neg_one_le_sin _) (Real.sin_le_one _)
        (Real.neg_one_le_sin _) (Real.sin_le_one _)
    -- fractal
    · simp only [shapeFactorAlgo]
      exact ⟨le_min zero_le_one (by positivity), min_le_left _ _⟩
    -- custom
    · simp only [shapeFactorAlgo]
      exact customShape_mem _
    -- sphere
    · simp only [shapeFactorAlgo]
      rw [hrough]
      simp only [lt_irrefl, if_false]
      split_ifs with hs1
      · have he : (0:ℝ) < max 0.1 s.curvature :=
          lt_of_lt_of_le (by norm_num) (le_max_left _ _)
        have hin := rpow_mem (|nx * (0.5 + s.frequency * 0.5)|) (max 0.1 s.curvature)
          (abs_nonneg _) hs1.le he.le
        exact rpow_mem _ _ (by linarith [hin.2]) (by linarith [hin.1]) (by positivity)
      · norm_num
    -- pyramid
    · simp only [shapeFactorAlgo]
      rw [hrough]
      simp only [lt_irrefl, if_false]
      exact rpow_mem _ _ (le_max_left _ _)
        (max_le (by norm_num) (by nlinarith [abs_nonneg (nx * (0.5 + s.frequency * 0.5))]))
        (le_trans (by norm_num) (le_max_left _ _))
    -- steps
    · simp only [shapeFactorAlgo]
      have hfl : (2:ℤ) ≤ ⌊2 + s.frequency * 8⌋ := by
        apply Int.le_floor.mpr
        push_cast
        nlinarith
      have hp : (0:ℝ) < ((⌊2 + s.frequency * 8⌋ : ℤ) : ℝ) := by
        exact_mod_cast (by omega : (0:ℤ) < ⌊2 + s.frequency * 8⌋)
      have hsr := rpow_mem (max 0 (1 - |nx|)) s.curvature (le_max_left _ _)
        (max_le (by norm_num) (by nlinarith [abs_nonneg nx])) hcurv
      exact floor_div_mem _ _ (mul_nonneg hsr.1 hp.le) (by nlinarith [hsr.2]) hp
    -- torus
    · simp only [shapeFactorAlgo]
      rw [hrough]
      simp only [lt_irrefl, if_false]
      split_ifs with hs1
      · have he : (0:ℝ) < max 0.1 s.curvature :=
          lt_of_lt_of_le (by norm_num) (le_max_left _ _)
        have hin := rpow_mem (|(|nx| - 0.5) * (1.0 + s.frequency) * 2|) (max 0.1 s.curvature)
          (abs_nonneg _) hs1.le he.le
        exact rpow_mem _ _ (by linarith [hin.2]) (by linarith [hin.1]) (by positivity)
      · norm_num
    -- pagoda
    · simp only [shapeFactorAlgo]
      rw [hrough]
      simp only [lt_irrefl, if_false]
      have hfl : (0:ℤ) ≤ ⌊s.frequency * 4⌋ := Int.floor_nonneg.mpr (by positivity)
      have hp : (0:ℝ) < ((2 + ⌊s.frequency * 4⌋ : ℤ) : ℝ) := by
        exact_mod_cast (by omega : (0:ℤ) < 2 + ⌊s.frequency * 4⌋)
      have hcp := rpow_mem (max 0 (1 - |nx| * 1.2)) (s.curvature * 0.5) (le_max_left _ _)
        (max_le (by norm_num) (by nlinarith [abs_nonneg nx])) (by positivity)
      exact floor_div_mem _ _ (mul_nonneg hcp.1 hp.le) (by nlinarith [hcp.2]) hp
    -- vase
    · simp only [shapeFactorAlgo]
      rw [hrough]
      simp only [lt_irrefl, if_false]
      have hA := half_cos_mem (nx * π * (s.frequency + 0.5) * 2)
      have hEnv : 0 ≤ max 0 (1 - |nx| ^ s.curvature) ∧ max 0 (1 - |nx| ^ s.curvature) ≤ 1 :=
        ⟨le_max_left _ _,
         max_le zero_le_one (by nlinarith [Real.rpow_nonneg (abs_nonneg nx) s.curvature])⟩
      exact ⟨mul_nonneg hA.1 hEnv.1, mul_le_one₀ hA.2 hEnv.1 hEnv.2⟩
    -- canyon
    · simp only [shapeFactorAlgo]
      rw [hrough]
      simp only [lt_irrefl, if_false]
      exact rpow_mem _ _ (le_min zero_le_one (le_max_left _ _)) (min_le_left _ _) hcurv
    -- image
    · simp only [shapeFactorAlgo]
      cases him : s.heightMapData with
      | none => norm_num
      | some hm =>
          dsimp only
          set idx := (hm.height / 2 * hm.width +
            (⌊(nx + 1) / 2 * ((hm.width : ℝ) - 1)⌋).toNat) * 4 with hidx
          have hb1 : (hm.data idx).val ≤ 255 := Fin.is_le _
          have hb2 : (hm.data (idx + 1)).val ≤ 255 := Fin.is_le _
          have hb3 : (hm.data (idx + 2)).val ≤ 255 := Fin.is_le _
          constructor
          · positivity
          · rw [div_div, div_le_one (by norm_num)]
            have hsum : ((hm.data idx).val + (hm.data (idx + 1)).val +
                (hm.data (idx + 2)).val : ℕ) ≤ 765 := by omega
            calc (((hm.data idx).val + (hm.data (idx + 1)).val +
                  (hm.data (idx + 2)).val : ℕ) : ℝ) ≤ 765 := by exact_mod_cast hsum
            _ ≤ 3 * 255 := by norm_num
    -- sketch
    · simp only [shapeFactorAlgo]
      split_ifs with hlen
      · unfold sketchShape
        rw [if_neg (by omega : ¬ s.sketchPoints.length < 2)]
        exact ⟨le_max_left _ _, max_le zero_le_one (min_le_left _ _)⟩
      · norm_num

/-- Concrete valid configuration (cols 4, fold 0, thickness 0.2) with the
gaussian variant and a negative spread parameter. -/
noncomputable def sNeg : AppState :=
  ⟨.gaussian, 2, 4, 50, 1, -100, 2, 0, 3, fun _ _ _ => .val (.fin 0), [], 0, 0.2, false,
   PAPER_A4, none⟩

/-- C1 counterexample: for the valid configuration sNeg (column count 4,
fold progress 0, thickness 0.2) the gaussian variant yields a shape
factor exp(1/4) > 1 at column 1, so the claimed [0,1] bound fails. -/
theorem shape_factor_gaussian_counterexample : 1 < shapeFactor sNeg 1 := by
  have h1 : shapeFactor sNeg 1 =
      Real.exp (-(normXD sNeg 1 * normXD sNeg 1 * (-100) / 100)) := rfl
  have hx : normXD sNeg 1 = -(1/2 : ℝ) := by
    unfold normXD sNeg
    norm_num
  rw [h1, hx]
  have h2 : (-((-(1/2 : ℝ)) * (-(1/2 : ℝ)) * (-100) / 100)) = (1/4 : ℝ) := by norm_num
  rw [h2]
  calc (1:ℝ) = Real.exp 0 := Real.exp_zero.symm
  _ < Real.exp (1/4) := Real.exp_lt_exp.mpr (by norm_num)

/-- Concrete witness configuration for the amended bound (stairs, all
perturbation parameters in range). -/
noncomputable def sWit : AppState :=
  ⟨.stairs, 2, 3, 50, 1, 300, 2, 0, 3, fun _ _ _ => .val (.fin 0), [], 1, 0.2, false,
   PAPER_A4, none⟩

/-- Witness for the amended C1 bound at a concrete configuration. -/
theorem shape_factor_bounded_amended_witness :
    (1 < sWit.cols ∧ sWit.roughness = 0 ∧ (0:ℝ) ≤ sWit.spread ∧
     (0:ℝ) ≤ sWit.curvature ∧ (0:ℝ) ≤ sWit.frequency) ∧
    (0 ≤ shapeFactor sWit 1 ∧ shapeFactor sWit 1 ≤ 1) :=
  ⟨⟨by norm_num [sWit], rfl, by norm_num [sWit], by norm_num [sWit], by norm_num [sWit]⟩,
   shape_factor_bounded_amended sWit 1 (by norm_num [sWit]) rfl (by norm_num [sWit])
     (by norm_num [sWit]) (by norm_num [sWit])⟩

/-- Concrete configuration whose custom formula evaluates to +Infinity. -/
noncomputable def sInf : AppState :=
  ⟨.custom, 2, 3, 50, 1, 300, 2, 0, 3, fun _ _ _ => .val .inf, [], 1, 0.2, false,
   PAPER_A4, none⟩

/-- C3 counterexample: when the custom formula yields +Infinity (a
non-finite value), the height factor of column 1 is 1, not 0: the
isNaN-only guard lets infinities through to the clamp. -/
theorem custom_infinite_counterexample : shapeFactor sInf 1 = 1 ∧ (1:ℝ) ≠ 0 := by
  constructor
  · have h1 : shapeFactor sInf 1 = max (0:ℝ) 1 := rfl
    rw [h1]
    norm_num
  · norm_num

/-- C3 amended: for the custom variant, a thrown evaluation or a NaN
result yields height factor 0 for every column; any result (including
the infinities, which clamp to 1) leaves the factor in [0,1] and the
evaluation is total — no failure escapes the engine. -/
theorem custom_error_amended (s : AppState) (c : ℕ)
    (halg : s.algorithm = AlgoType.custom) :
    ((s.customEval (normXD s c) s.frequency c = CustomResult.thrown ∨
      s.customEval (normXD s c) s.frequency c = CustomResult.val JNum.nan) →
        shapeFactor s c = 0) ∧
    (0 ≤ shapeFactor s c ∧ shapeFactor s c ≤ 1) := by
  have hs : shapeFactor s c =
      if c % 2 = 0 then 0
      else customShape (s.customEval (normXD s c) s.frequency c) := by
    unfold shapeFactor
    rw [halg]
    rcases Nat.decEq (c % 2) 0 with h | h
    · rw [if_neg h, if_neg h]
      rfl
    · rw [if_pos h, if_pos h]
  rw [hs]
  by_cases h0 : c % 2 = 0
  · simp [h0]
  · rw [if_neg h0]
    refine ⟨?_, customShape_mem _⟩
    rintro (he | he) <;> rw [he] <;> norm_num [customShape, JNum.isNaNJ]

/-- Witness for the amended C3 behaviour at a concrete configuration. -/
theorem custom_error_amended_witness :
    sInf.algorithm = AlgoType.custom ∧
    (((sInf.customEval (normXD sInf 1) sInf.frequency 1 = CustomResult.thrown ∨
       sInf.customEval (normXD sInf 1) sInf.frequency 1 = CustomResult.val JNum.nan) →
        shapeFactor sInf 1 = 0) ∧
     (0 ≤ shapeFactor sInf 1 ∧ shapeFactor sInf 1 ≤ 1)) :=
  ⟨rfl, custom_error_amended sInf 1 rfl⟩

lemma stepLoop_lines_zero (r xL xR : ℝ) (steps : ℕ) (vw nw : Vec3) (i : ℕ) (pos : Vec3)
    (paperY : ℝ) : (stepLoop r xL xR steps vw nw i 0 pos paperY).lines = [] := rfl

lemma stepLoop_lines_succ (r xL xR : ℝ) (steps : ℕ) (vw nw : Vec3) (i k : ℕ) (pos : Vec3)
    (paperY : ℝ) :
    (stepLoop r xL xR steps vw nw i (k + 1) pos paperY).lines =
      (let dy := |(-r * Real.cos ((((i : ℝ) + 1) / (steps : ℝ)) * (π / 2))) -
                  (-r * Real.cos (((i : ℝ) / (steps : ℝ)) * (π / 2)))|
       let dz := |r * Real.sin ((((i : ℝ) + 1) / (steps : ℝ)) * (π / 2)) -
                  r * Real.sin (((i : ℝ) / (steps : ℝ)) * (π / 2))|
       (if 0.01 < dz then [(⟨xL, paperY + dy, xR, paperY + dy, .valley⟩ : BLine)] else []) ++
       (if i < steps - 1 ∧ 0.01 < dy then
          [(⟨xL, paperY + dy + dz, xR, paperY + dy + dz, .mountain⟩ : BLine)] else []) ++
       (stepLoop r xL xR steps vw nw (i + 1) k
          ((pos.addScaled vecFloor dy).addScaled vw dz) (paperY + dy + dz)).lines) := rfl

/-- The end-to-end scenario configuration: cols 3, rows 2, amplitude 50,
stairs, fold progress 1, A4 paper. -/
noncomputable def s0 : AppState :=
  ⟨.stairs, 2, 3, 50, 1, 300, 2, 0, 3, fun _ _ _ => .val (.fin 0), [], 1, 0.2, false,
   PAPER_A4, none⟩

lemma s0_loop_lines (xL xR : ℝ) (vw nw : Vec3) (pos : Vec3) :
    (stepLoop 50 xL xR 2 vw nw 0 2 pos (-50)).lines =
      [⟨xL, -(25 * Real.sqrt 2), xR, -(25 * Real.sqrt 2), .valley⟩,
       ⟨xL, 0, xR, 0, .mountain⟩,
       ⟨xL, 25 * Real.sqrt 2, xR, 25 * Real.sqrt 2, .valley⟩] := by
  have hsq := Real.sq_sqrt (show (0:ℝ) ≤ 2 by norm_num)
  have hs0 := Real.sqrt_nonneg 2
  have hs2lo : (1.4:ℝ) < Real.sqrt 2 := by nlinarith
  have hs2hi : Real.sqrt 2 < 1.5 := by nlinarith
  have hA : |(50:ℝ) * (Real.sqrt 2 / 2)| = 25 * Real.sqrt 2 := by
    rw [abs_of_nonneg (by positivity)]
    ring
  have hB : |-(50 * (Real.sqrt 2 / 2)) + 50| = 50 - 25 * Real.sqrt 2 := by
    rw [abs_of_nonneg (by nlinarith)]
    ring
  have hC : |(50:ℝ) - 50 * (Real.sqrt 2 / 2)| = 50 - 25 * Real.sqrt 2 := by
    rw [abs_of_nonneg (by nlinarith)]
    ring
  have h1 : (1:ℝ)/100 < 25 * Real.sqrt 2 := by nlinarith
  have h2 : (1:ℝ)/100 < 50 - 25 * Real.sqrt 2 := by nlinarith
  simp only [stepLoop_lines_succ, stepLoop_lines_zero]
  norm_num [show (1/2 : ℝ) * (π/2) = π/4 by ring, Real.cos_pi_div_four, Real.sin_pi_div_four]
  rw [hA, hB, hC]
  rw [if_pos h1, if_pos h2, if_pos h2]
  simp only [List.cons_append, List.nil_append, List.singleton_append, List.cons.injEq,
    BLine.mk.injEq]
  norm_num
  constructor
  · ring
  · ring

lemma s0_radius : profileRadiusP s0 1 = 50 := by
  unfold profileRadiusP
  rw [show profileRadiusRaw s0 1 = 50 from rfl]
  rw [show s0.paperSize.height = 297 from rfl, show s0.paperSize.margin = 20 from rfl]
  rw [min_eq_left (by norm_num)]

lemma colOut_s0_col1 :
    (colOut s0 1).2 =
      [⟨xLeftD s0 1, -(297:ℝ)/2, xLeftD s0 1, (297:ℝ)/2, .cut⟩,
       ⟨xRightD s0 1, -(297:ℝ)/2, xRightD s0 1, (297:ℝ)/2, .cut⟩,
       ⟨xLeftD s0 1, -(25 * Real.sqrt 2), xRightD s0 1, -(25 * Real.sqrt 2), .valley⟩,
       ⟨xLeftD s0 1, 0, xRightD s0 1, 0, .mountain⟩,
       ⟨xLeftD s0 1, 25 * Real.sqrt 2, xRightD s0 1, 25 * Real.sqrt 2, .valley⟩] := by
  unfold colOut
  rw [if_neg (by norm_num : ¬(1 % 2 = 0))]
  rw [s0_radius]
  rw [if_neg (by norm_num : ¬((50:ℝ) < 1))]
  unfold activeOut
  dsimp only
  rw [s0_radius]
  rw [show max 2 s0.rows = 2 from rfl]
  rw [s0_loop_lines, show s0.paperSize.height = (297:ℝ) from rfl]

lemma stepLoop_kinds_succ (r xL xR : ℝ) (steps : ℕ) (vw nw : Vec3) (i k : ℕ) (pos : Vec3)
    (paperY : ℝ) :
    (stepLoop r xL xR steps vw nw i (k + 1) pos paperY).segs.map Seg.kind =
      SegKind.tread :: SegKind.riser ::
        (stepLoop r xL xR steps vw nw (i + 1) k
          ((pos.addScaled vecFloor
              (|(-r * Real.cos ((((i : ℝ) + 1) / (steps : ℝ)) * (π / 2))) -
                (-r * Real.cos (((i : ℝ) / (steps : ℝ)) * (π / 2)))|)).addScaled vw
            (|r * Real.sin ((((i : ℝ) + 1) / (steps : ℝ)) * (π / 2)) -
              r * Real.sin (((i : ℝ) / (steps : ℝ)) * (π / 2))|))
          (paperY +
            |(-r * Real.cos ((((i : ℝ) + 1) / (steps : ℝ)) * (π / 2))) -
              (-r * Real.cos (((i : ℝ) / (steps : ℝ)) * (π / 2)))| +
            |r * Real.sin ((((i : ℝ) + 1) / (steps : ℝ)) * (π / 2)) -
              r * Real.sin (((i : ℝ) / (steps : ℝ)) * (π / 2))|)).segs.map Seg.kind := rfl

lemma stepLoop_kinds (r xL xR : ℝ) (steps : ℕ) (vw nw : Vec3) :
    ∀ (k i : ℕ) (pos : Vec3) (paperY : ℝ),
      (stepLoop r xL xR steps vw nw i k pos paperY).segs.map Seg.kind =
        (List.replicate k [SegKind.tread, SegKind.riser]).flatten := by
  intro k
  induction k with
  | zero => intro i pos paperY; rfl
  | succ k ih =>
      intro i pos paperY
      rw [stepLoop_kinds_succ, ih]
      rfl

lemma blueprint_s0_decomp :
    blueprintOf s0 = (colOut s0 0).2 ++ ((colOut s0 1).2 ++ ((colOut s0 2).2 ++ [])) := rfl

lemma colOut_s0_col1_kinds :
    (colOut s0 1).1.map Seg.kind =
      [SegKind.floorMargin, SegKind.tread, SegKind.riser, SegKind.tread, SegKind.riser,
       SegKind.wallMargin] := by
  unfold colOut
  rw [if_neg (by norm_num : ¬(1 % 2 = 0)), s0_radius,
    if_neg (by norm_num : ¬((50:ℝ) < 1))]
  unfold activeOut
  dsimp only
  rw [show max 2 s0.rows = 2 from rfl]
  simp only [List.map_cons, List.map_append]
  rw [stepLoop_kinds]
  rfl

/-- C2: end-to-end stairs scenario (cols 3, rows 2, amplitude 50, fold
progress 1, A4): columns 0 and 2 are fixed with exactly the two static
anchor segments each; column 1 is active with exactly two tread/riser
segment pairs; the blueprint holds exactly two cut lines, both vertical
at column 1's left/right x-extents and running the full paper height,
exactly one mountain line, and column 1 emits exactly two valley lines. -/
theorem stairs_end_to_end_scenario :
    (colOut s0 0).1.map Seg.kind = [SegKind.fixedFloor, SegKind.fixedWall] ∧
    (colOut s0 2).1.map Seg.kind = [SegKind.fixedFloor, SegKind.fixedWall] ∧
    (colOut s0 1).1.map Seg.kind =
      [SegKind.floorMargin, SegKind.tread, SegKind.riser, SegKind.tread, SegKind.riser,
       SegKind.wallMargin] ∧
    (blueprintOf s0).countP (fun l => l.type = LineType.cut) = 2 ∧
    (blueprintOf s0).filter (fun l => l.type = LineType.cut) =
      [⟨xLeftD s0 1, -(297:ℝ)/2, xLeftD s0 1, (297:ℝ)/2, .cut⟩,
       ⟨xRightD s0 1, -(297:ℝ)/2, xRightD s0 1, (297:ℝ)/2, .cut⟩] ∧
    (blueprintOf s0).countP (fun l => l.type = LineType.mountain) = 1 ∧
    (colOut s0 1).2.countP (fun l => l.type = LineType.valley) = 2 := by
  refine ⟨rfl, rfl, colOut_s0_col1_kinds, ?_, ?_, ?_, ?_⟩
  · rw [blueprint_s0_decomp, show (colOut s0 0).2 = fixedLines s0 0 from rfl,
      show (colOut s0 2).2 = fixedLines s0 2 from rfl, colOut_s0_col1]
    simp [fixedLines, List.countP_append, List.countP_cons]
  · rw [blueprint_s0_decomp, show (colOut s0 0).2 = fixedLines s0 0 from rfl,
      show (colOut s0 2).2 = fixedLines s0 2 from rfl, colOut_s0_col1]
    simp [fixedLines, List.filter_append]
  · rw [blueprint_s0_decomp, show (colOut s0 0).2 = fixedLines s0 0 from rfl,
      show (colOut s0 2).2 = fixedLines s0 2 from rfl, colOut_s0_col1]
    simp [fixedLines, List.countP_append, List.countP_cons]
  · rw [colOut_s0_col1]
    simp [List.countP_cons]

/-- C7: an active (odd) column whose clamped profile radius is below the
negligible threshold 1 degrades to the flat-spacer fallback: it emits
exactly one valley line at the hinge (y = 0) and no cut or mountain
lines, and its segments are exactly the two fixed-column anchors. -/
theorem negligible_radius_flat_fallback (s : AppState) (c : ℕ)
    (hc : c < s.cols) (hodd : c % 2 ≠ 0) (hr : profileRadiusP s c < 1) :
    (colOut s c).2 = [⟨xLeftD s c, 0, xRightD s c, 0, LineType.valley⟩] ∧
    (colOut s c).1.map Seg.kind = [SegKind.fixedFloor, SegKind.fixedWall] := by
  unfold colOut
  rw [if_neg hodd, if_pos hr]
  exact ⟨rfl, rfl⟩

/-- The degenerate-amplitude configuration: the stairs scenario with
amplitude 0. -/
noncomputable def s1 : AppState :=
  ⟨.stairs, 2, 3, 0, 1, 300, 2, 0, 3, fun _ _ _ => .val (.fin 0), [], 1, 0.2, false,
   PAPER_A4, none⟩

lemma s1_radius : profileRadiusP s1 1 = 0 := by
  unfold profileRadiusP
  rw [show profileRadiusRaw s1 1 = 0 from rfl,
    show s1.paperSize.height = 297 from rfl, show s1.paperSize.margin = 20 from rfl]
  rw [min_eq_left (by norm_num)]

/-- Witness for the flat-spacer fallback at amplitude 0. -/
theorem negligible_radius_flat_fallback_witness :
    (1 < s1.cols ∧ 1 % 2 ≠ 0 ∧ profileRadiusP s1 1 < 1) ∧
    ((colOut s1 1).2 = [⟨xLeftD s1 1, 0, xRightD s1 1, 0, LineType.valley⟩] ∧
     (colOut s1 1).1.map Seg.kind = [SegKind.fixedFloor, SegKind.fixedWall]) :=
  ⟨⟨by norm_num [s1], by norm_num, by rw [s1_radius]; norm_num⟩,
   negligible_radius_flat_fallback s1 1 (by norm_num [s1]) (by norm_num)
     (by rw [s1_radius]; norm_num)⟩

lemma stepLoop_lines_types (r xL xR : ℝ) (steps : ℕ) (vw nw : Vec3) :
    ∀ (k i : ℕ) (pos : Vec3) (paperY : ℝ) (l : BLine),
      l ∈ (stepLoop r xL xR steps vw nw i k pos paperY).lines →
        l.type = LineType.valley ∨ l.type = LineType.mountain := by
  intro k
  induction k with
  | zero =>
      intro i pos paperY l hl
      rw [stepLoop_lines_zero] at hl
      exact absurd hl (List.not_mem_nil l)
  | succ k ih =>
      intro i pos paperY l hl
      rw [stepLoop_lines_succ] at hl
      simp only [List.mem_append] at hl
      rcases hl with (h | h) | h
      · split_ifs at h
        · simp only [List.mem_cons, List.not_mem_nil, or_false] at h
          rw [h]
          exact Or.inl rfl
        · simp at h
      · split_ifs at h
        · simp only [List.mem_cons, List.not_mem_nil, or_false] at h
          rw [h]
          exact Or.inr rfl
        · simp at h
      · exact ih _ _ _ _ h

/-- C6: every cut line in the blueprint is vertical (both endpoints share
one x), and that x is the left or right x-extent of an active (odd)
column; fixed (even) columns never emit cut lines. -/
theorem cut_lines_at_active_extents (s : AppState) (l : BLine)
    (hl : l ∈ blueprintOf s) (ht : l.type = LineType.cut) :
    l.x1 = l.x2 ∧
    ∃ c, c < s.cols ∧ c % 2 = 1 ∧ (l.x1 = xLeftD s c ∨ l.x1 = xRightD s c) := by
  unfold blueprintOf at hl
  rw [List.mem_flatMap] at hl
  obtain ⟨c, hc, hmem⟩ := hl
  rw [List.mem_range] at hc
  unfold colOut at hmem
  by_cases h0 : c % 2 = 0
  · rw [if_pos h0] at hmem
    exfalso
    unfold fixedLines at hmem
    simp only [List.mem_cons, List.not_mem_nil, or_false] at hmem
    rcases hmem with h | h | h | h | h <;> (rw [h] at ht; simp at ht)
  · rw [if_neg h0] at hmem
    by_cases h1 : profileRadiusP s c < 1
    · rw [if_pos h1] at hmem
      exfalso
      simp only [List.mem_cons, List.not_mem_nil, or_false] at hmem
      rw [hmem] at ht
      simp at ht
    · rw [if_neg h1] at hmem
      unfold activeOut at hmem
      dsimp only at hmem
      rw [List.mem_cons, List.mem_cons] at hmem
      rcases hmem with h | h | h
      · subst h
        exact ⟨rfl, c, hc, by omega, Or.inl rfl⟩
      · subst h
        exact ⟨rfl, c, hc, by omega, Or.inr rfl⟩
      · exfalso
        rcases stepLoop_lines_types _ _ _ _ _ _ _ _ _ _ l h with hv | hv <;>
          (rw [ht] at hv; simp at hv)

/-- The left cut line of column 1 in the stairs scenario, for the C6
witness. -/
noncomputable def c6Line : BLine :=
  ⟨xLeftD s0 1, -(297:ℝ)/2, xLeftD s0 1, (297:ℝ)/2, .cut⟩

/-- Witness for the cut-line coherence theorem at the stairs scenario. -/
theorem cut_lines_at_active_extents_witness :
    (c6Line ∈ blueprintOf s0 ∧ c6Line.type = LineType.cut) ∧
    (c6Line.x1 = c6Line.x2 ∧
     ∃ c, c < s0.cols ∧ c % 2 = 1 ∧
       (c6Line.x1 = xLeftD s0 c ∨ c6Line.x1 = xRightD s0 c)) := by
  have hmem : c6Line ∈ blueprintOf s0 := by
    rw [blueprint_s0_decomp]
    refine List.mem_append.mpr (Or.inr ?_)
    refine List.mem_append.mpr (Or.inl ?_)
    rw [colOut_s0_col1]
    exact List.mem_cons_self _ _
  exact ⟨⟨hmem, rfl⟩, cut_lines_at_active_extents s0 c6Line hmem rfl⟩
